import Mathlib

/-!
Shallow embedding of the linx-server storage backend
(`src/backends/storage.go`, `src/backends/localfs/localfs.go`).

The filesystem is modelled as two key-indexed partial maps, mirroring the
two directories `filesPath` (object bytes) and `metaPath` (JSON metadata
sidecars).  OS calls that can fail for environmental reasons (create, open,
read, stat, remove, JSON encode) take explicit fault-injection parameters;
external collaborators (the SHA-256 hasher, mimetype detection and the
archive-listing helper) are passed in as functions, since the backend only
uses them through their call contract.
-/

namespace LinxServer

/-- A byte of file content (a value 0–255; the numeric range is irrelevant
to the properties proved here). -/
abbrev Byte := Nat

/-- An instant, as nanoseconds since the Unix epoch (Go `time.Time`). -/
abbrev Time := Int

/-- Go `Time.Unix()`: the whole-second part of an instant.  Go stores
`sec`/`nsec` with `0 ≤ nsec < 1e9`, so `Unix()` is floor division of the
nanosecond count, which is `Int` Euclidean division by a positive divisor. -/
def timeUnix (t : Time) : Int := t / 1000000000

/-- Go `time.Unix(sec, 0)`: the instant at a whole second. -/
def timeFromUnix (sec : Int) : Time := sec * 1000000000

/-- Go's zero `time.Time{}` (January 1, year 1 UTC), whose `Unix()` is
-62135596800; this is what error paths leave in a `Metadata` result. -/
def goTimeZero : Time := -62135596800 * 1000000000

/-- Modelled from the spec: the "never expire" sentinel `expiry.NeverExpire`
of the expiry package, which is not under src.  The spec only requires a
distinguished sentinel instant; upstream uses the Unix epoch. -/
def neverExpire : Time := 0

/-- Errors surfaced by the backend: the four sentinel errors of the
backends package, plus OS-level errors.  `notExist` is an OS error for
which `os.IsNotExist` holds; `ioErr code` is any other I/O error, the
code only serving to tell distinct injected errors apart. -/
inductive Err where
  | notFound
  | badMetadata
  | fileEmpty
  | fileTooLarge
  | notExist
  | ioErr (code : Nat)
deriving DecidableEq, Repr

/-- `backends.Metadata` as used by `localfs.go` (the struct itself lives in
the backends package outside src; its field set is exactly the one read and
written by `localfs.go` and listed in the spec's data model). -/
structure Metadata where
  deleteKey : String
  accessKey : String
  sha256sum : String
  mimetype : String
  size : Int
  expiry : Time
  srcIp : String
  originalName : String
  archiveFiles : List String
deriving DecidableEq, Repr

/-- Go's zero value of `backends.Metadata`, which error paths return. -/
def Metadata.zero : Metadata :=
  { deleteKey := "", accessKey := "", sha256sum := "", mimetype := ""
    size := 0, expiry := goTimeZero, srcIp := "", originalName := ""
    archiveFiles := [] }

/-- `localfs.MetadataJSON`: the persisted sidecar record.  JSON `omitempty`
absence of a field and the corresponding zero value are identified, which
matches Go decoding (an omitted field decodes to the zero value). -/
structure MetadataJSON where
  delete_key : String
  access_key : String
  sha256sum : String
  mimetype : String
  size : Int
  expiry : Int
  srcip : String
  original_name : String
  archive_files : List String
deriving DecidableEq, Repr

/-- Contents of a metadata sidecar file: either a record that parses, or
bytes the JSON decoder rejects. -/
inductive MetaFile where
  | good (mjson : MetadataJSON)
  | corrupt
deriving DecidableEq, Repr

/-- The filesystem state seen through the two directories of a
`LocalfsBackend`: `files` maps a key to the data file's bytes,
`metas` maps a key to its metadata sidecar. -/
structure FS where
  files : String → Option (List Byte)
  metas : String → Option MetaFile

/-- Create, overwrite or (with `none`) remove a data file. -/
def FS.setFile (fs : FS) (key : String) (v : Option (List Byte)) : FS :=
  { fs with files := fun k => if k = key then v else fs.files k }

/-- Create, overwrite or (with `none`) remove a metadata sidecar. -/
def FS.setMeta (fs : FS) (key : String) (v : Option MetaFile) : FS :=
  { fs with metas := fun k => if k = key then v else fs.metas k }

/-- The empty filesystem. -/
def FS.empty : FS := { files := fun _ => none, metas := fun _ => none }

/-- One lowercase hexadecimal digit, as `encoding/hex` produces. -/
def hexDigit (n : Nat) : Char :=
  if n < 10 then Char.ofNat (48 + n) else Char.ofNat (87 + n)

/-- Two hex digits of one byte (`b >> 4`, then `b & 15`). -/
def hexEncodeByte (b : Byte) : String :=
  String.mk [hexDigit (b / 16 % 16), hexDigit (b % 16)]

/-- Go `hex.EncodeToString`: lowercase hex, two digits per byte. -/
def hexEncode (bs : List Byte) : String := String.join (bs.map hexEncodeByte)

/-- The process-wide `backends.Limits` configuration: `MaxDurationTime`
(a `uint64` number of seconds), `MaxDurationSize` and `MaxSize`
(both `int64` byte counts). -/
structure Limits where
  maxDurationTime : Nat
  maxDurationSize : Int
  maxSize : Int

/-- The expiry computation of `Put` (localfs.go lines 158–172), extracted
as the pure function it is: `maxDurationTime` is the configured seconds
scaled to a `time.Duration` in nanoseconds, and the requested
`expiryTime : time.Duration` is likewise in nanoseconds. -/
def computeExpiry (lim : Limits) (now : Time) (expiryTime : Int)
    (bytes : Int) : Time :=
  let maxDurationTime : Int := (lim.maxDurationTime : Int) * 1000000000
  if expiryTime = 0 then
    if bytes > lim.maxDurationSize ∧ maxDurationTime > 0 then
      now + maxDurationTime
    else
      neverExpire
  else
    if bytes > lim.maxDurationSize ∧ expiryTime > maxDurationTime then
      now + maxDurationTime
    else
      now + expiryTime

/-- The spec's expiry policy, §4.3, written from its words: zero requested
duration gives `now + maxDurationLimit` when the size exceeds the threshold
and the limit is positive, else the never sentinel; a non-zero requested
duration is capped at `maxDurationLimit` when the size exceeds the
threshold, else honored. -/
def computeExpirySpec (lim : Limits) (now : Time) (requestedDuration : Int)
    (size : Int) : Time :=
  let maxDurationLimit : Int := (lim.maxDurationTime : Int) * 1000000000
  if requestedDuration = 0 then
    if size > lim.maxDurationSize ∧ maxDurationLimit > 0 then
      now + maxDurationLimit
    else
      neverExpire
  else
    if size > lim.maxDurationSize ∧ requestedDuration > maxDurationLimit then
      now + maxDurationLimit
    else
      now + requestedDuration

/-- The field-copy block of `Head` (localfs.go lines 61–73): decode a
parsed sidecar record into a `backends.Metadata`, `Expiry` reconstructed
with `time.Unix(mjson.Expiry, 0)`.  Note the source copies every field
except `SrcIp`, which keeps the zero value of the `metadata` result. -/
def decodeMetadata (mjson : MetadataJSON) : Metadata :=
  { deleteKey := mjson.delete_key
    accessKey := mjson.access_key
    mimetype := mjson.mimetype
    archiveFiles := mjson.archive_files
    originalName := mjson.original_name
    sha256sum := mjson.sha256sum
    expiry := timeFromUnix mjson.expiry
    size := mjson.size
    srcIp := "" }

/-- `LocalfsBackend.Head` (localfs.go lines 50–76).  `openFault` injects an
`os.Open` failure on a present sidecar that is not an `IsNotExist` error
(an absent sidecar always fails open with `IsNotExist`). -/
def Head (fs : FS) (key : String) (openFault : Bool) : Except Err Metadata :=
  match fs.metas key with
  | none => .error .notFound
  | some mf =>
    if openFault then
      .error .badMetadata
    else
      match mf with
      | .corrupt => .error .badMetadata
      | .good mjson => .ok (decodeMetadata mjson)

/-- `LocalfsBackend.Get` (localfs.go lines 78–90), with Go's three named
results `(metadata, f, err)`: on a `Head` failure the stream is nil and the
metadata is the zero value; `dataOpenFault` injects an `os.Open` failure on
the data file. -/
def Get (fs : FS) (key : String) (metaOpenFault : Bool)
    (dataOpenFault : Option Nat) : Metadata × Option (List Byte) × Option Err :=
  match Head fs key metaOpenFault with
  | .error e => (Metadata.zero, none, some e)
  | .ok metadata =>
    match dataOpenFault with
    | some c => (metadata, none, some (.ioErr c))
    | none =>
      match fs.files key with
      | none => (metadata, none, some .notExist)
      | some bs => (metadata, some bs, none)

/-- `LocalfsBackend.ServeFile` (localfs.go lines 92–102): `Head` for the
existence check, its result discarded; then `http.ServeFile` streams
whatever is at the data path (serving nothing but still returning a nil
error when the file is absent).  The first component is what reaches the
response sink. -/
def ServeFile (fs : FS) (key : String) (metaOpenFault : Bool) :
    Option (List Byte) × Option Err :=
  match Head fs key metaOpenFault with
  | .error e => (none, some e)
  | .ok _ => (fs.files key, none)

/-- `backends.Metadata` → `localfs.MetadataJSON`, the struct literal of
`writeMetadata` (localfs.go lines 107–118); `Expiry` is persisted as
`metadata.Expiry.Unix()`, whole seconds. -/
def encodeMetadata (m : Metadata) : MetadataJSON :=
  { delete_key := m.deleteKey
    access_key := m.accessKey
    mimetype := m.mimetype
    archive_files := m.archiveFiles
    original_name := m.originalName
    sha256sum := m.sha256sum
    expiry := timeUnix m.expiry
    size := m.size
    srcip := m.srcIp }

/-- `LocalfsBackend.writeMetadata` (localfs.go lines 104–134).
`createFault` injects an `os.Create` failure (nothing written);
`encodeFault` injects an `Encode` failure, after which the source removes
the just-created sidecar. -/
def writeMetadata (fs : FS) (key : String) (m : Metadata)
    (createFault encodeFault : Bool) : FS × Option Err :=
  if createFault then
    (fs, some (.ioErr 2))
  else
    let fs1 := FS.setMeta fs key (some (.good (encodeMetadata m)))
    if encodeFault then
      (FS.setMeta fs1 key none, some (.ioErr 3))
    else
      (fs1, none)

/-- `LocalfsBackend.PutMetadata` (localfs.go lines 207–214): exactly
`writeMetadata`. -/
def PutMetadata (fs : FS) (key : String) (m : Metadata)
    (createFault encodeFault : Bool) : FS × Option Err :=
  writeMetadata fs key m createFault encodeFault

/-- `LocalfsBackend.Delete` (localfs.go lines 36–43): remove the data file;
on any error return at once, else remove the metadata file.  `os.Remove`
of an absent path fails with an `IsNotExist` error; the fault flags inject
removal failures on present files. -/
def Delete (fs : FS) (key : String) (dataRemoveFault metaRemoveFault : Bool) :
    FS × Option Err :=
  if dataRemoveFault then
    (fs, some (.ioErr 4))
  else
    match fs.files key with
    | none => (fs, some .notExist)
    | some _ =>
      let fs1 := FS.setFile fs key none
      if metaRemoveFault then
        (fs1, some (.ioErr 5))
      else
        match fs1.metas key with
        | none => (fs1, some .notExist)
        | some _ => (FS.setMeta fs1 key none, none)

/-- `os.Stat` on the data file: the size on success; an `IsNotExist` error
when the file is absent; `statFault` injects any other stat failure. -/
def osStat (fs : FS) (key : String) (statFault : Option Nat) :
    Except Err Int :=
  match statFault with
  | some c => .error (.ioErr c)
  | none =>
    match fs.files key with
    | none => .error .notExist
    | some bs => .ok (bs.length : Int)

/-- `LocalfsBackend.Exists` (localfs.go lines 45–48): stat the data file
and return `(err == nil, err)`. -/
def Exists (fs : FS) (key : String) (statFault : Option Nat) :
    Bool × Option Err :=
  match osStat fs key statFault with
  | .ok _ => (true, none)
  | .error e => (false, some e)

/-- `LocalfsBackend.Size` (localfs.go lines 216–223): stat the data file
directly, never consulting metadata. -/
def Size (fs : FS) (key : String) (statFault : Option Nat) :
    Except Err Int :=
  osStat fs key statFault

/-- The environment of one `Put` call: the clock, fault injections for the
fallible OS steps, and the three external collaborators — the SHA-256
hasher (fed, through the `TeeReader`, exactly the bytes copied), mimetype
detection on the up-to-512-byte prefix, and `helpers.ListArchiveFiles`.
Modelled from the spec: the collaborators' packages are not under src; the
spec gives only their call contract
(`detectMimetype(prefixBytes) -> mimetypeString`,
`listArchiveFiles(mimetypeString, size, fullStream) -> (namesList, error)`
with the Go convention of a nil names list alongside an error). -/
structure PutEnv where
  now : Time
  createFault : Bool
  headerReadFault : Bool
  metaCreateFault : Bool
  metaEncodeFault : Bool
  sha256 : List Byte → List Byte
  detect : List Byte → String
  listArchiveFiles : String → Int → List Byte → Except Unit (List String)

/-- `LocalfsBackend.Put` (localfs.go lines 136–205).  The input stream is
modelled by `content` (the bytes `io.Copy` delivers) together with
`copyErr` (an I/O error the copy returns after delivering them); the
`TeeReader` hands exactly those bytes to the hasher.  `env.createFault`
fails the initial `os.Create`; `env.headerReadFault` fails the 512-byte
header read-back; the metadata faults are passed through to
`writeMetadata`. -/
def Put (lim : Limits) (env : PutEnv) (fs : FS) (key : String)
    (content : List Byte) (copyErr : Option Nat) (expiryTime : Int)
    (deleteKey accessKey srcIp originalName : String) :
    FS × Except Err Metadata :=
  if env.createFault then
    (fs, .error (.ioErr 0))
  else
    let fs1 := FS.setFile fs key (some content)
    let bytes : Int := (content.length : Int)
    if bytes = 0 then
      (FS.setFile fs1 key none, .error .fileEmpty)
    else
      match copyErr with
      | some c => (FS.setFile fs1 key none, .error (.ioErr c))
      | none =>
        if bytes ≥ lim.maxSize then
          (FS.setFile fs1 key none, .error .fileTooLarge)
        else
          let fileExpiry := computeExpiry lim env.now expiryTime bytes
          if env.headerReadFault then
            (FS.setFile fs1 key none, .error (.ioErr 1))
          else
            let header := content.take 512
            let mt := env.detect header
            let sha := hexEncode (env.sha256 content)
            let archiveFiles :=
              match env.listArchiveFiles mt bytes content with
              | .ok l => l
              | .error _ => []
            let m : Metadata :=
              { mimetype := mt, size := bytes, sha256sum := sha
                expiry := fileExpiry, deleteKey := deleteKey
                accessKey := accessKey, srcIp := srcIp
                archiveFiles := archiveFiles, originalName := originalName }
            match writeMetadata fs1 key m env.metaCreateFault
                env.metaEncodeFault with
            | (fs2, some e) => (FS.setFile fs2 key none, .error e)
            | (fs2, none) => (fs2, .ok m)

/-- The `Metadata` record a successful `Put` assembles (localfs.go lines
184–196), as a function of the inputs. -/
def putResult (lim : Limits) (env : PutEnv) (content : List Byte)
    (expiryTime : Int) (deleteKey accessKey srcIp originalName : String) :
    Metadata :=
  { mimetype := env.detect (content.take 512)
    size := (content.length : Int)
    sha256sum := hexEncode (env.sha256 content)
    expiry := computeExpiry lim env.now expiryTime (content.length : Int)
    deleteKey := deleteKey, accessKey := accessKey, srcIp := srcIp
    archiveFiles :=
      match env.listArchiveFiles (env.detect (content.take 512))
          (content.length : Int) content with
      | .ok l => l
      | .error _ => []
    originalName := originalName }

/-- Inversion for a successful `Put`: the returned metadata is `putResult`
and the final state holds the content under the data key and the encoded
metadata under the sidecar key. -/
theorem Put_ok_dest (lim : Limits) (env : PutEnv) (fs : FS) (key : String)
    (content : List Byte) (copyErr : Option Nat) (expiryTime : Int)
    (dk ak ip origName : String) (fs' : FS) (m : Metadata)
    (h : Put lim env fs key content copyErr expiryTime dk ak ip origName
      = (fs', .ok m)) :
    m = putResult lim env content expiryTime dk ak ip origName ∧
    fs' = (FS.setFile fs key (some content)).setMeta key
      (some (.good (encodeMetadata m))) := by
  rcases copyErr with _ | c <;>
  cases hA : env.createFault <;>
  by_cases h0 : (content.length : Int) = 0 <;>
  by_cases hs : (content.length : Int) ≥ lim.maxSize <;>
  cases hH : env.headerReadFault <;>
  cases hMC : env.metaCreateFault <;>
  cases hME : env.metaEncodeFault <;>
  rcases hl : env.listArchiveFiles (env.detect (content.take 512))
      ((content.length : Int)) content with l | u <;>
  simp_all [Put, writeMetadata, putResult] <;>
  (obtain ⟨h1, h2⟩ := h; subst h2; exact h1.symm)

/-- C1: for every successful `Put(key, content, …)` on `LocalfsBackend`,
the metadata returned by `Put`, and the metadata a subsequent `Head(key)`
reads back, have `sha256sum` equal to the hex encoding of the SHA-256 of
exactly the bytes of `content`, and `size` equal to the byte length of
`content`. -/
theorem C1_put_hash_and_size (lim : Limits) (env : PutEnv) (fs : FS)
    (key : String) (content : List Byte) (copyErr : Option Nat)
    (expiryTime : Int) (dk ak ip origName : String) (m : Metadata)
    (hm : (Put lim env fs key content copyErr expiryTime dk ak ip origName).2
      = .ok m) :
    m.sha256sum = hexEncode (env.sha256 content) ∧
    m.size = (content.length : Int) ∧
    ∃ m2,
      Head (Put lim env fs key content copyErr expiryTime dk ak ip origName).1
        key false = .ok m2 ∧
      m2.sha256sum = hexEncode (env.sha256 content) ∧
      m2.size = (content.length : Int) := by
  have h : Put lim env fs key content copyErr expiryTime dk ak ip origName
      = ((Put lim env fs key content copyErr expiryTime dk ak ip origName).1,
        .ok m) := by
    rw [← hm]
  obtain ⟨h1, h2⟩ := Put_ok_dest lim env fs key content copyErr expiryTime
    dk ak ip origName _ m h
  refine ⟨by rw [h1]; rfl, by rw [h1]; rfl,
    decodeMetadata (encodeMetadata m), ?_, ?_, ?_⟩
  · rw [h2]
    simp [Head, FS.setMeta]
  · rw [h1]
    rfl
  · rw [h1]
    rfl

/-- Concrete limits for witnesses: max duration 3600 s, size threshold
1000 bytes, max size 4096 bytes. -/
def limW : Limits := { maxDurationTime := 3600, maxDurationSize := 1000, maxSize := 4096 }

/-- A concrete fault-free `Put` environment for witnesses. -/
def envW : PutEnv :=
  { now := 1700000000000000000
    createFault := false, headerReadFault := false
    metaCreateFault := false, metaEncodeFault := false
    sha256 := fun bs => [bs.length % 256, 7]
    detect := fun _ => "text/plain; charset=utf-8"
    listArchiveFiles := fun _ _ _ => .ok [] }

theorem C1_put_hash_and_size_witness :
    (Put limW envW FS.empty "k" [1, 2, 3] none 0 "dk" "ak" "ip" "f").2
      = .ok (putResult limW envW [1, 2, 3] 0 "dk" "ak" "ip" "f") ∧
    ((putResult limW envW [1, 2, 3] 0 "dk" "ak" "ip" "f").sha256sum
        = hexEncode (envW.sha256 [1, 2, 3]) ∧
      (putResult limW envW [1, 2, 3] 0 "dk" "ak" "ip" "f").size = (3 : Int) ∧
      ∃ m2,
        Head (Put limW envW FS.empty "k" [1, 2, 3] none 0 "dk" "ak" "ip" "f").1
          "k" false = .ok m2 ∧
        m2.sha256sum = hexEncode (envW.sha256 [1, 2, 3]) ∧
        m2.size = (3 : Int)) :=
  ⟨rfl, C1_put_hash_and_size limW envW FS.empty "k" [1, 2, 3] none 0
    "dk" "ak" "ip" "f" (putResult limW envW [1, 2, 3] 0 "dk" "ak" "ip" "f") rfl⟩

/-- C2: the expiry a successful `Put` stores obeys the spec's expiry
policy exactly — the code's computation agrees with the policy stated in
the spec on all inputs, and on the spec's four concrete cases (max
duration 3600 s, threshold 1000 bytes) it gives never, now+3600 s,
now+3600 s (capped) and now+1800 s respectively. -/
theorem C2_put_expiry_policy (lim : Limits) (env : PutEnv) (fs : FS)
    (key : String) (content : List Byte) (copyErr : Option Nat)
    (expiryTime : Int) (dk ak ip origName : String) (m : Metadata)
    (hm : (Put lim env fs key content copyErr expiryTime dk ak ip origName).2
      = .ok m) :
    m.expiry = computeExpirySpec lim env.now expiryTime (content.length : Int) ∧
    (∀ (l : Limits) (now d sz : Int),
      computeExpiry l now d sz = computeExpirySpec l now d sz) ∧
    (∀ now : Time,
      computeExpiry limW now 0 500 = neverExpire ∧
      computeExpiry limW now 0 2000 = now + 3600 * 1000000000 ∧
      computeExpiry limW now (7200 * 1000000000) 2000
        = now + 3600 * 1000000000 ∧
      computeExpiry limW now (1800 * 1000000000) 2000
        = now + 1800 * 1000000000) := by
  have h : Put lim env fs key content copyErr expiryTime dk ak ip origName
      = ((Put lim env fs key content copyErr expiryTime dk ak ip origName).1,
        .ok m) := by
    rw [← hm]
  obtain ⟨h1, _⟩ := Put_ok_dest lim env fs key content copyErr expiryTime
    dk ak ip origName _ m h
  refine ⟨by rw [h1]; rfl, fun l now d sz => rfl, fun now => ?_⟩
  refine ⟨?_, ?_, ?_, ?_⟩ <;> norm_num [computeExpiry, neverExpire, limW]

theorem C2_put_expiry_policy_witness :
    ((putResult limW envW [1, 2] (1800 * 1000000000) "dk" "" "" "").expiry
      = computeExpirySpec limW envW.now (1800 * 1000000000) (2 : Int)) ∧
    computeExpiry limW 5 0 500 = neverExpire :=
  have h := C2_put_expiry_policy limW envW FS.empty "k" [1, 2] none
    (1800 * 1000000000) "dk" "" "" ""
    (putResult limW envW [1, 2] (1800 * 1000000000) "dk" "" "" "") rfl
  ⟨h.1, (h.2.2 5).1⟩

/-- The concrete `Metadata` on which C3's round-trip claim fails: a
non-empty `srcIp` and a sub-second expiry component. -/
def mC3 : Metadata :=
  { deleteKey := "d", accessKey := "", sha256sum := "s"
    mimetype := "text/plain", size := 3, expiry := 500000000
    srcIp := "203.0.113.7", originalName := "f.txt", archiveFiles := [] }

/-- C3, counterexample: `PutMetadata` of `mC3` succeeds, yet the
`Metadata` a subsequent `Head` returns is not equal to `mC3` in every
field — `Head` leaves `srcIp` empty and truncates `expiry` to whole
seconds. -/
theorem C3_roundtrip_counterexample :
    (PutMetadata FS.empty "k" mC3 false false).2 = none ∧
    Head (PutMetadata FS.empty "k" mC3 false false).1 "k" false
      ≠ .ok mC3 := by
  refine ⟨rfl, fun hcontra => ?_⟩
  simp [PutMetadata, writeMetadata, Head, FS.setMeta, decodeMetadata,
    encodeMetadata, timeUnix, timeFromUnix, mC3, FS.empty] at hcontra

/-- C3 as amended: for every `Metadata` `m` whose expiry is a whole number
of seconds, a successful `PutMetadata(key, m)` followed by `Head(key)`
returns a `Metadata` equal to `m` in every field except `srcIp`, which
`Head` leaves empty (the sidecar persists expiry as whole seconds and
`Head` never copies the stored `srcip` back). -/
theorem C3_roundtrip_amended (fs : FS) (key : String) (m : Metadata)
    (h : m.expiry % 1000000000 = 0) :
    (PutMetadata fs key m false false).2 = none ∧
    Head (PutMetadata fs key m false false).1 key false
      = .ok { m with srcIp := "" } := by
  have hexp : timeFromUnix (timeUnix m.expiry) = m.expiry := by
    unfold timeFromUnix timeUnix
    exact Int.ediv_mul_cancel (Int.dvd_of_emod_eq_zero h)
  refine ⟨rfl, ?_⟩
  simp [PutMetadata, writeMetadata, Head, FS.setMeta, decodeMetadata,
    encodeMetadata, hexp]

theorem C3_roundtrip_amended_witness :
    ((4000000000 : Int) % 1000000000 = 0) ∧
    ((PutMetadata FS.empty "k"
        { mC3 with expiry := 4000000000 } false false).2 = none ∧
      Head (PutMetadata FS.empty "k"
          { mC3 with expiry := 4000000000 } false false).1 "k" false
        = .ok { mC3 with expiry := 4000000000, srcIp := "" }) :=
  ⟨by decide,
    C3_roundtrip_amended FS.empty "k" { mC3 with expiry := 4000000000 }
      (by decide)⟩

/-- C8: an archive-listing failure never fails `Put` — when every other
step succeeds and `helpers.ListArchiveFiles` returns an error, `Put`
still returns ok and the resulting metadata has an empty `archiveFiles`
list; the archive-listing error is never propagated. -/
theorem C8_archive_error_tolerated (lim : Limits) (env : PutEnv) (fs : FS)
    (key : String) (content : List Byte) (expiryTime : Int)
    (dk ak ip origName : String)
    (h1 : env.createFault = false) (h2 : env.headerReadFault = false)
    (h3 : env.metaCreateFault = false) (h4 : env.metaEncodeFault = false)
    (h5 : content ≠ []) (h6 : (content.length : Int) < lim.maxSize)
    (h7 : env.listArchiveFiles (env.detect (content.take 512))
      (content.length : Int) content = .error ()) :
    ∃ m, (Put lim env fs key content none expiryTime dk ak ip origName).2
        = .ok m ∧
      m.archiveFiles = [] := by
  have h0 : ((content.length : Int)) ≠ 0 := by
    simpa using h5
  have hs : ¬ ((content.length : Int) ≥ lim.maxSize) := not_le.mpr h6
  refine ⟨putResult lim env content expiryTime dk ak ip origName, ?_, ?_⟩
  · simp [Put, writeMetadata, h1, h2, h3, h4, h0, hs, h7, putResult]
  · simp [putResult, h7]

/-- A `Put` environment whose archive-listing collaborator always fails. -/
def envW8 : PutEnv :=
  { envW with listArchiveFiles := fun _ _ _ => .error () }

theorem C8_archive_error_tolerated_witness :
    ∃ m, (Put limW envW8 FS.empty "k" [9, 9] none 0 "dk" "" "" "").2
        = .ok m ∧
      m.archiveFiles = [] :=
  C8_archive_error_tolerated limW envW8 FS.empty "k" [9, 9] 0 "dk" "" "" ""
    rfl rfl rfl rfl (by decide) (by decide) rfl

/-- C4: whenever `Put` returns an error on a fresh key (no data or
metadata file for it beforehand), no data file and no metadata file for
that key remain: every error exit after the data file is created removes
it, and a failed metadata write leaves no sidecar behind either. -/
theorem C4_put_error_cleanup (lim : Limits) (env : PutEnv) (fs : FS)
    (key : String) (content : List Byte) (copyErr : Option Nat)
    (expiryTime : Int) (dk ak ip origName : String) (fs' : FS) (e : Err)
    (h : Put lim env fs key content copyErr expiryTime dk ak ip origName
      = (fs', .error e))
    (hf : fs.files key = none) (hmk : fs.metas key = none) :
    fs'.files key = none ∧ fs'.metas key = none := by
  rcases copyErr with _ | c <;>
  cases hA : env.createFault <;>
  by_cases h0 : (content.length : Int) = 0 <;>
  by_cases hs : (content.length : Int) ≥ lim.maxSize <;>
  cases hH : env.headerReadFault <;>
  cases hMC : env.metaCreateFault <;>
  cases hME : env.metaEncodeFault <;>
  simp_all [Put, writeMetadata, FS.setFile, FS.setMeta] <;>
  (obtain ⟨h1, h2⟩ := h; subst h1; simp_all)

theorem C4_put_error_cleanup_witness :
    FS.empty.files "k" = none ∧ FS.empty.metas "k" = none ∧
    ((Put limW envW FS.empty "k" [] none 0 "dk" "" "" "").1.files "k" = none ∧
      (Put limW envW FS.empty "k" [] none 0 "dk" "" "" "").1.metas "k"
        = none) :=
  ⟨rfl, rfl,
    C4_put_error_cleanup limW envW FS.empty "k" [] none 0 "dk" "" "" ""
      (Put limW envW FS.empty "k" [] none 0 "dk" "" "" "").1 .fileEmpty
      rfl rfl rfl⟩

/-- C5: after the copy, `Put` classifies rejections in this order — zero
bytes copied gives `FileEmptyError` (even if the copy also returned an
error); otherwise a copy error is propagated; otherwise a byte count at or
above the configured maximum gives `FileTooLargeError`.  In each case the
data file is removed and the metadata store is untouched. -/
theorem C5_put_rejection_order (lim : Limits) (env : PutEnv) (fs : FS)
    (key : String) (content : List Byte) (copyErr : Option Nat)
    (expiryTime : Int) (dk ak ip origName : String)
    (hc : env.createFault = false) :
    (content = [] →
      (Put lim env fs key content copyErr expiryTime dk ak ip origName).2
        = .error .fileEmpty ∧
      (Put lim env fs key content copyErr expiryTime dk ak ip origName).1.files
        key = none ∧
      (Put lim env fs key content copyErr expiryTime dk ak ip origName).1.metas
        key = fs.metas key) ∧
    (∀ c, content ≠ [] → copyErr = some c →
      (Put lim env fs key content copyErr expiryTime dk ak ip origName).2
        = .error (.ioErr c) ∧
      (Put lim env fs key content copyErr expiryTime dk ak ip origName).1.files
        key = none ∧
      (Put lim env fs key content copyErr expiryTime dk ak ip origName).1.metas
        key = fs.metas key) ∧
    (content ≠ [] → copyErr = none →
      (content.length : Int) ≥ lim.maxSize →
      (Put lim env fs key content copyErr expiryTime dk ak ip origName).2
        = .error .fileTooLarge ∧
      (Put lim env fs key content copyErr expiryTime dk ak ip origName).1.files
        key = none ∧
      (Put lim env fs key content copyErr expiryTime dk ak ip origName).1.metas
        key = fs.metas key) := by
  refine ⟨?_, ?_, ?_⟩
  · intro h0
    subst h0
    simp [Put, hc, FS.setFile]
  · intro c h0 hc2
    subst hc2
    have h0' : ((content.length : Int)) ≠ 0 := by simpa using h0
    simp [Put, hc, h0', FS.setFile]
  · intro h0 hc2 hs
    subst hc2
    have h0' : ((content.length : Int)) ≠ 0 := by simpa using h0
    simp [Put, hc, h0', hs, FS.setFile]

theorem C5_put_rejection_order_witness :
    (Put limW envW FS.empty "k" [] none 0 "dk" "" "" "").2
      = .error .fileEmpty ∧
    (Put limW envW FS.empty "k" [] none 0 "dk" "" "" "").1.files "k" = none ∧
    (Put limW envW FS.empty "k" [] none 0 "dk" "" "" "").1.metas "k"
      = FS.empty.metas "k" :=
  (C5_put_rejection_order limW envW FS.empty "k" [] none 0
    "dk" "" "" "" rfl).1 rfl

/-- C6: `Head` fails with `NotFound` exactly when the metadata sidecar is
absent, and with `BadMetadata` when the sidecar is present but unreadable
or unparsable; `Get` on a key with no metadata fails with `NotFound` and a
nil stream, and when `Head` succeeds but the data file cannot be opened,
`Get` surfaces the distinct underlying open error. -/
theorem C6_head_get_error_kinds (fs : FS) (key : String) (openFault : Bool)
    (dataOpenFault : Option Nat) :
    (Head fs key openFault = .error .notFound ↔ fs.metas key = none) ∧
    (∀ mf, fs.metas key = some mf → (openFault = true ∨ mf = .corrupt) →
      Head fs key openFault = .error .badMetadata) ∧
    (fs.metas key = none →
      Get fs key openFault dataOpenFault
        = (Metadata.zero, none, some .notFound)) ∧
    (∀ md c, Head fs key openFault = .ok md →
      Get fs key openFault (some c) = (md, none, some (.ioErr c))) := by
  refine ⟨?_, ?_, ?_, ?_⟩
  · rcases hmk : fs.metas key with _ | mf
    · simp [Head, hmk]
    · cases openFault <;> rcases mf with mjson | _ <;> simp [Head, hmk]
  · intro mf hmk hbad
    rcases hbad with hb | hb
    · subst hb
      simp [Head, hmk]
    · subst hb
      cases openFault <;> simp [Head, hmk]
  · intro hmk
    simp [Get, Head, hmk]
  · intro md c hok
    simp [Get, hok]

theorem C6_head_get_error_kinds_witness :
    Get FS.empty "k" false none = (Metadata.zero, none, some .notFound) :=
  (C6_head_get_error_kinds FS.empty "k" false none).2.2.1 rfl

/-- C7: `Delete` removes the data file first and the metadata file second;
a failure removing the data file aborts before the metadata removal and is
returned with the state untouched.  After a successful `Delete`, `Exists`
reports false, and a second `Delete` of the same key returns an error. -/
theorem C7_delete_order_and_effects (fs : FS) (key : String) :
    (∀ mrf, Delete fs key true mrf = (fs, some (.ioErr 4))) ∧
    (∀ bs mf, fs.files key = some bs → fs.metas key = some mf →
      (Delete fs key false false).2 = none ∧
      Exists (Delete fs key false false).1 key none
        = (false, some .notExist) ∧
      (Delete (Delete fs key false false).1 key false false).2
        = some .notExist) := by
  refine ⟨fun mrf => rfl, fun bs mf hf hm => ?_⟩
  simp [Delete, hf, hm, FS.setFile, FS.setMeta, Exists, osStat]

/-- One stored object under key `"k"`, for the C7 witness. -/
def fsC7 : FS :=
  (FS.empty.setFile "k" (some [1])).setMeta "k" (some .corrupt)

theorem C7_delete_order_and_effects_witness :
    (Delete fsC7 "k" false false).2 = none ∧
    Exists (Delete fsC7 "k" false false).1 "k" none
      = (false, some .notExist) ∧
    (Delete (Delete fsC7 "k" false false).1 "k" false false).2
      = some .notExist :=
  (C7_delete_order_and_effects fsC7 "k").2 [1] .corrupt rfl rfl

/-- C9: `Exists` returns true exactly when the stat of the data file
succeeds; a stat failure other than absence surfaces its I/O error next to
the boolean, and a simply absent data file yields false (with the
`IsNotExist` stat error, which the source also returns). -/
theorem C9_exists_stat (fs : FS) (key : String) (statFault : Option Nat) :
    ((Exists fs key statFault).1 = true ↔
      ∃ n, osStat fs key statFault = .ok n) ∧
    (∀ c, statFault = some c →
      Exists fs key statFault = (false, some (.ioErr c))) ∧
    (statFault = none → fs.files key = none →
      Exists fs key statFault = (false, some .notExist)) := by
  refine ⟨?_, ?_, ?_⟩
  · rcases statFault with _ | c
    · rcases hf : fs.files key with _ | bs <;> simp [Exists, osStat, hf]
    · simp [Exists, osStat]
  · intro c hc
    subst hc
    simp [Exists, osStat]
  · intro hc hf
    subst hc
    simp [Exists, osStat, hf]

theorem C9_exists_stat_witness :
    Exists FS.empty "k" (some 9) = (false, some (.ioErr 9)) :=
  (C9_exists_stat FS.empty "k" (some 9)).2.1 9 rfl

/-- C10: neither `Get` nor `ServeFile` reads the stored access key — for
two stored metadata records differing only in `access_key`, `Get` returns
the same stream and error and `ServeFile` behaves identically; and with
valid metadata and a readable data file both succeed and serve exactly the
stored bytes, whatever the access key. -/
theorem C10_accesskey_noninterference (fs : FS) (key : String)
    (mjson : MetadataJSON) (ak : String) (openFault : Bool)
    (dataOpenFault : Option Nat) :
    (Get (fs.setMeta key (some (.good mjson))) key openFault
        dataOpenFault).2
      = (Get (fs.setMeta key (some (.good { mjson with access_key := ak })))
          key openFault dataOpenFault).2 ∧
    ServeFile (fs.setMeta key (some (.good mjson))) key openFault
      = ServeFile
          (fs.setMeta key (some (.good { mjson with access_key := ak })))
          key openFault ∧
    (∀ bs, openFault = false → dataOpenFault = none →
      fs.files key = some bs →
      (Get (fs.setMeta key (some (.good mjson))) key openFault
          dataOpenFault).2 = (some bs, none) ∧
      (Get (fs.setMeta key (some (.good { mjson with access_key := ak })))
          key openFault dataOpenFault).2 = (some bs, none) ∧
      ServeFile (fs.setMeta key (some (.good mjson))) key openFault
        = (some bs, none)) := by
  refine ⟨?_, ?_, ?_⟩
  · cases openFault <;> rcases dataOpenFault with _ | c <;>
      rcases hf : fs.files key with _ | bs <;>
      simp [Get, Head, FS.setMeta, hf]
  · cases openFault <;> simp [ServeFile, Head, FS.setMeta]
  · intro bs h1 h2 hf
    subst h1
    subst h2
    simp [Get, ServeFile, Head, FS.setMeta, hf]

theorem C10_accesskey_noninterference_witness :
    (Get ((FS.empty.setFile "k" (some [5])).setMeta "k"
          (some (.good (encodeMetadata mC3)))) "k" false none).2
      = (some [5], none) ∧
    (Get ((FS.empty.setFile "k" (some [5])).setMeta "k"
          (some (.good { encodeMetadata mC3 with access_key := "sec" })))
        "k" false none).2 = (some [5], none) ∧
    ServeFile ((FS.empty.setFile "k" (some [5])).setMeta "k"
        (some (.good (encodeMetadata mC3)))) "k" false
      = (some [5], none) :=
  (C10_accesskey_noninterference (FS.empty.setFile "k" (some [5])) "k"
    (encodeMetadata mC3) "sec" false none).2.2 [5] rfl rfl
    (by simp [FS.setFile, FS.empty])

end LinxServer
